import Mathlib

/-!
# Verification of the KnowTation core

A shallow embedding of the KnowTation citation manager
(`src/services/bibtexService.ts`, `src/services/nostrService.ts`,
`src/services/referenceService.ts`, `src/utils/validators.ts`,
`src/utils/encryption.ts`, and the page-level orchestration in
`EditReference.tsx` / `ViewReference.tsx`), together with proofs about the
encodings, the citation-key derivation, the BibTeX import and the
publish/retract protocol.

Strings are processed at the `List Char` level.  JavaScript semantics that
the source relies on (truthiness of `''`/`0`, `parseInt`, `split`,
`trim`, regular-expression fragments such as `\w`, `\s`, `(\S+)$`) are
embedded as explicit Lean functions, restricted to the ASCII behaviour the
code exercises.
-/

namespace KnowTation

/-- JavaScript whitespace (`\s`), ASCII range: space, tab, LF, VT, FF, CR. -/
def isJsWs (c : Char) : Bool :=
  c = ' ' || c = '\t' || c = '\n' || c = '\x0b' || c = '\x0c' || c = '\r'

/-- JavaScript word character (`\w`): ASCII letters, digits and underscore. -/
def isWordChar (c : Char) : Bool :=
  c.isAlphanum || c = '_'

/-- `String.prototype.trim()` on a character list. -/
def trimChars (cs : List Char) : List Char :=
  ((cs.dropWhile isJsWs).reverse.dropWhile isJsWs).reverse

/-- `String.prototype.trim()`. -/
def jsTrim (s : String) : String := String.mk (trimChars s.data)

/-- `String.prototype.toLowerCase()` (ASCII case mapping, which is all the
source compares against). -/
def jsToLowerString (s : String) : String := String.mk (s.data.map Char.toLower)

/-- Decimal digits of `n`, most significant first; `fuel` bounds recursion
(`fuel > n` always suffices). -/
def natDecChars : Nat → Nat → List Char
  | 0, _ => []
  | fuel+1, n =>
    if n < 10 then [Nat.digitChar n]
    else natDecChars fuel (n / 10) ++ [Nat.digitChar (n % 10)]

/-- `Number.prototype.toString()` for a non-negative integer. -/
def natToDecString (n : Nat) : String := String.mk (natDecChars (n+1) n)

/-- `Number.prototype.toString()` for an integer. -/
def intToDecString (i : Int) : String :=
  if i < 0 then String.mk ('-' :: natDecChars (i.natAbs+1) i.natAbs)
  else natToDecString i.natAbs

/-- Numeric value of an ASCII decimal digit. -/
def digitVal (c : Char) : Nat := c.toNat - 48

/-- Value of a list of decimal digits, most significant first. -/
def decValue (cs : List Char) : Nat := cs.foldl (fun a c => a * 10 + digitVal c) 0

/-- Leading decimal-digit run of `parseInt`; `none` models `NaN`. -/
def parseDecRun (cs : List Char) : Option Nat :=
  let run := cs.takeWhile Char.isDigit
  if run.isEmpty then none else some (decValue run)

/-- Hexadecimal digit test for `parseInt`'s automatic `0x` radix. -/
def isHexDigitJs (c : Char) : Bool :=
  c.isDigit || ('a' ≤ c && c ≤ 'f') || ('A' ≤ c && c ≤ 'F')

/-- Value of an ASCII hexadecimal digit. -/
def hexDigitVal (c : Char) : Nat :=
  if c.isDigit then c.toNat - 48
  else if 'a' ≤ c && c ≤ 'f' then c.toNat - 87
  else c.toNat - 55

/-- Leading hexadecimal-digit run of `parseInt` after a `0x` prefix. -/
def parseHexRun (cs : List Char) : Option Nat :=
  let run := cs.takeWhile isHexDigitJs
  if run.isEmpty then none
  else some (run.foldl (fun a c => a * 16 + hexDigitVal c) 0)

/-- Magnitude part of `parseInt` (decimal, or hexadecimal after `0x`/`0X`). -/
def jsParseIntMag (cs : List Char) : Option Nat :=
  match cs with
  | c1 :: c2 :: rest =>
    if c1 = '0' ∧ (c2 = 'x' ∨ c2 = 'X') then parseHexRun rest
    else parseDecRun (c1 :: c2 :: rest)
  | _ => parseDecRun cs

/-- `parseInt(s)` with no radix argument: skip leading whitespace, optional
sign, leading digit run (trailing garbage ignored); `none` models `NaN`. -/
def jsParseIntChars (cs0 : List Char) : Option Int :=
  match cs0.dropWhile isJsWs with
  | [] => none
  | c :: rest =>
    if c = '-' then (jsParseIntMag rest).map (fun n => -(n : Int))
    else if c = '+' then (jsParseIntMag rest).map (fun n => (n : Int))
    else (jsParseIntMag (c :: rest)).map (fun n => (n : Int))

/-- `parseInt` on a string. -/
def jsParseInt (s : String) : Option Int := jsParseIntChars s.data

/-- `String.prototype.split(/\s+/)`: cut at maximal whitespace runs.  A run
at the start or end of the string contributes an empty chunk (JavaScript
behaviour).  `cur` is the reversed current chunk, `inRun` records whether
the previous character was whitespace. -/
def jsSplitWsAux : List Char → List Char → Bool → List String
  | [], cur, _ => [String.mk cur.reverse]
  | c :: t, cur, inRun =>
    if isJsWs c then
      if inRun then jsSplitWsAux t [] true
      else String.mk cur.reverse :: jsSplitWsAux t [] true
    else jsSplitWsAux t (c :: cur) false

/-- `s.split(/\s+/)`. -/
def jsSplitWs (s : String) : List String := jsSplitWsAux s.data [] false

/-- Maximal non-whitespace runs of a character list (no empty chunks);
`cur` is the reversed current run. -/
def wordsAux : List Char → List Char → List (List Char)
  | [], cur => if cur.isEmpty then [] else [cur.reverse]
  | c :: t, cur =>
    if isJsWs c then
      if cur.isEmpty then wordsAux t [] else cur.reverse :: wordsAux t []
    else wordsAux t (c :: cur)

/-- The whitespace-separated words of a string. -/
def wordsOf (s : String) : List String := (wordsAux s.data []).map String.mk

/-- The capture of the regular expression `(\S+)$`: the trailing run of
non-whitespace characters, `[]` when the string is empty or ends in
whitespace (no match). -/
def trailingRunAux : List Char → List Char → List Char
  | [], cur => cur.reverse
  | c :: t, cur => if isJsWs c then trailingRunAux t [] else trailingRunAux t (c :: cur)

/-- Trailing non-whitespace run of a string (`match(/(\S+)$/)`). -/
def trailingNonWsRun (s : String) : List Char := trailingRunAux s.data []

/-- `String.prototype.split(sep)` with a non-empty literal separator. -/
def splitOnSubAux (sep : List Char) : Nat → List Char → List Char → List String
  | 0, cs, cur => [String.mk (cur.reverse ++ cs)]
  | _, [], cur => [String.mk cur.reverse]
  | fuel+1, c :: t, cur =>
    if sep.isPrefixOf (c :: t) then
      String.mk cur.reverse :: splitOnSubAux sep fuel ((c :: t).drop sep.length) []
    else splitOnSubAux sep fuel t (c :: cur)

/-- `s.split(sep)` for a literal string separator. -/
def jsSplitOnStr (s sep : String) : List String :=
  splitOnSubAux sep.data (s.data.length + 1) s.data []

/-- Does the string start with a whitespace character? -/
def startsWsChars (cs : List Char) : Bool :=
  match cs with
  | c :: _ => isJsWs c
  | [] => false

/-- Does the string end with a whitespace character? -/
def endsWsChars (cs : List Char) : Bool :=
  match cs.getLast? with
  | some c => isJsWs c
  | none => false

/-! ## Data model (`src/types/reference.ts`)

`visibility` is the TypeScript string union `'public' | 'private'` and is
kept as a `String`, so that the `=== 'public'` comparisons of the source
keep their exact semantics.  Optional fields are `Option`; where the source
additionally treats `''`/`0` as absent (JavaScript truthiness) the
embedding tests for those values explicitly. -/

/-- The canonical Citation Record (`interface Reference`). -/
structure Reference where
  id : String
  title : String
  authors : List String
  year : Option Int
  journalOrBook : Option String
  doi : Option String
  url : Option String
  tags : List String
  notes : Option String
  visibility : String
  createdAt : Nat
  updatedAt : Nat
  eventId : Option String
deriving DecidableEq, Repr

/-- Form data for creating or editing references (`interface ReferenceFormData`). -/
structure ReferenceFormData where
  title : String
  authors : List String
  year : Option Int
  journalOrBook : Option String
  doi : Option String
  url : Option String
  tags : List String
  notes : Option String
  visibility : String
deriving DecidableEq, Repr

/-- A Nostr event with plain text content (public reference events and
retraction events). -/
structure NostrEvent where
  kind : Nat
  content : String
  tags : List (List String)
  created_at : Nat
deriving DecidableEq, Repr

/-! ## Encryption module (`src/utils/encryption.ts`)

The AES-GCM / PBKDF2 primitives live in the browser
(`window.crypto.subtle`), not in this repository; only the thin wrappers
`deriveEncryptionKey` / `encryptData` / `decryptData` are source code.
Modelled from the spec: the AEAD primitive is ideal authenticated
encryption — decryption recovers the plaintext exactly when key and nonce
match and fails otherwise; the base64 `nonce‖ciphertext` blob is an opaque
structure carrying the 12-byte IV next to the ciphertext.  The random IV of
`encryptData` is passed in as a parameter. -/

/-- An AES-GCM key derived by PBKDF2; opaque key material. -/
structure EncryptionKey where
  material : String
deriving DecidableEq, Repr

/-- Modelled from the spec: PBKDF2 (100000 iterations, SHA-256, fixed salt)
is a deterministic function of the public key; the derived key is opaque,
so the model tags the key with its derivation input. -/
def deriveEncryptionKey (publicKey : String) : EncryptionKey := ⟨publicKey⟩

/-- Modelled from the spec: an ideal AEAD ciphertext remembers the key and
nonce it was produced with and the plaintext it protects. -/
structure AeadCiphertext where
  key : EncryptionKey
  iv : List Nat
  plaintext : String
deriving DecidableEq, Repr

/-- Ideal AEAD encryption (`crypto.subtle.encrypt` with AES-GCM). -/
def aeadEncrypt (key : EncryptionKey) (iv : List Nat) (data : String) : AeadCiphertext :=
  ⟨key, iv, data⟩

/-- Ideal AEAD decryption (`crypto.subtle.decrypt` with AES-GCM): succeeds
exactly when the key and nonce match the ones used at encryption time
(tag check), returning the whole plaintext; otherwise it fails without
producing any output. -/
def aeadDecrypt (key : EncryptionKey) (iv : List Nat) (ct : AeadCiphertext) : Option String :=
  if ct.key = key ∧ ct.iv = iv then some ct.plaintext else none

/-- The base64 blob returned by `encryptData`: IV (first 12 bytes)
followed by the ciphertext. -/
structure EncryptedBlob where
  iv : List Nat
  ciphertext : AeadCiphertext
deriving DecidableEq, Repr

/-- `encryptData(data, key)` from `src/utils/encryption.ts`: fresh 12-byte
IV (passed in, as it is drawn from `crypto.getRandomValues`), AES-GCM
encryption, blob = IV next to ciphertext. -/
def encryptData (data : String) (key : EncryptionKey) (iv : List Nat) : EncryptedBlob :=
  ⟨iv, aeadEncrypt key iv data⟩

/-- Decryption failure: the AEAD tag check failed. -/
inductive CryptoError
  | authenticationFailure
deriving DecidableEq, Repr

/-- `decryptData(encryptedData, key)` from `src/utils/encryption.ts`:
split the IV off the blob, decrypt the remainder; a failing tag check
raises (modelled as `Except.error`). -/
def decryptData (blob : EncryptedBlob) (key : EncryptionKey) : Except CryptoError String :=
  match aeadDecrypt key blob.iv blob.ciphertext with
  | some pt => .ok pt
  | none => .error .authenticationFailure

/-! ## JSON serialization of a record

`usePublishPrivateReference` encrypts `JSON.stringify(reference)`.
`JSON.stringify` is a platform primitive; modelled here keeping its two
properties the code relies on: every field of the record (including
`notes`) is embedded, and `undefined` fields are omitted. -/

/-- JSON string escaping (the characters the records can contain). -/
def jsonEscape (s : String) : String :=
  String.mk (s.data.foldr (fun c acc =>
    if c = '"' then '\\' :: '"' :: acc
    else if c = '\\' then '\\' :: '\\' :: acc
    else if c = '\n' then '\\' :: 'n' :: acc
    else if c = '\r' then '\\' :: 'r' :: acc
    else if c = '\t' then '\\' :: 't' :: acc
    else c :: acc) [])

/-- A JSON string literal. -/
def jsonStr (s : String) : String := "\"" ++ jsonEscape s ++ "\""

/-- A JSON member for an optional string field (omitted when `undefined`). -/
def jsonOptStrField (name : String) (v : Option String) : List String :=
  match v with
  | some s => [jsonStr name ++ ":" ++ jsonStr s]
  | none => []

/-- Modelled from the spec: `JSON.stringify(reference)` — the canonical
serialized text form of the full record that the private path encrypts. -/
def jsonStringifyReference (r : Reference) : String :=
  let fields :=
    [jsonStr "id" ++ ":" ++ jsonStr r.id,
     jsonStr "title" ++ ":" ++ jsonStr r.title,
     jsonStr "authors" ++ ":[" ++ String.intercalate "," (r.authors.map jsonStr) ++ "]"]
    ++ (match r.year with
        | some y => [jsonStr "year" ++ ":" ++ intToDecString y]
        | none => [])
    ++ jsonOptStrField "journalOrBook" r.journalOrBook
    ++ jsonOptStrField "doi" r.doi
    ++ jsonOptStrField "url" r.url
    ++ [jsonStr "tags" ++ ":[" ++ String.intercalate "," (r.tags.map jsonStr) ++ "]"]
    ++ jsonOptStrField "notes" r.notes
    ++ [jsonStr "visibility" ++ ":" ++ jsonStr r.visibility,
        jsonStr "createdAt" ++ ":" ++ natToDecString r.createdAt,
        jsonStr "updatedAt" ++ ":" ++ natToDecString r.updatedAt]
    ++ jsonOptStrField "eventId" r.eventId
  "\x7b" ++ String.intercalate "," fields ++ "\x7d"

/-! ## Nostr service (`src/services/nostrService.ts`) -/

/-- Kind number of public reference events. -/
def REFERENCE_PUBLIC_KIND : Nat := 50000

/-- Kind number of private (encrypted) reference events. -/
def REFERENCE_PRIVATE_KIND : Nat := 50001

/-- Kind number of deletion/retraction events. -/
def REFERENCE_DELETE_KIND : Nat := 5

/-- The tag contributed by an optional string field of the record:
`if (reference.f) tags.push([k, reference.f])` — absent or empty values
(JavaScript falsy) contribute nothing. -/
def strOptTag (k : String) (v : Option String) : List (List String) :=
  match v with
  | some s => if s = "" then [] else [[k, s]]
  | none => []

/-- The tag contributed by the year:
`if (reference.year) tags.push(['year', reference.year.toString()])` —
absent or zero (JavaScript falsy) contributes nothing. -/
def yearOptTag (v : Option Int) : List (List String) :=
  match v with
  | some y => if y = 0 then [] else [["year", intToDecString y]]
  | none => []

/-- The tag list built by `usePublishPublicReference`: title, one `author`
tag per author, then the optional fields guarded by JavaScript truthiness,
one `t` tag per user tag, and the `client-ref-id` correlation tag. -/
def publicReferenceTags (r : Reference) : List (List String) :=
  [["title", r.title]]
  ++ r.authors.map (fun author => ["author", author])
  ++ yearOptTag r.year
  ++ strOptTag "journal" r.journalOrBook
  ++ strOptTag "doi" r.doi
  ++ strOptTag "url" r.url
  ++ r.tags.map (fun t => ["t", t])
  ++ [["client-ref-id", r.id]]

/-- The public reference event assembled by `usePublishPublicReference`
(`now` is `Math.floor(Date.now() / 1000)`). -/
def publishPublicReferenceEvent (r : Reference) (now : Nat) : NostrEvent :=
  { kind := REFERENCE_PUBLIC_KIND
    content := "KnowTation public reference"
    tags := publicReferenceTags r
    created_at := now }

/-- The value the public-publish mutation resolves with: the source ignores
the transport response (`data`) and resolves the fixed placeholder string. -/
def publishPublicResolvedId (_r : Reference) (_transportEventId : String) : String :=
  "event:placeholder"

/-- A Nostr event whose content is the encrypted blob
(`interface PrivateReferenceEvent`). -/
structure PrivateReferenceEvent where
  kind : Nat
  content : EncryptedBlob
  tags : List (List String)
  created_at : Nat
deriving DecidableEq, Repr

/-- The private reference event assembled by `usePublishPrivateReference`:
content is the encrypted serialized record, tags are only the
`client-ref-id` tag and the fixed `e-type`/`reference` marker. -/
def publishPrivateReferenceEvent (r : Reference) (key : EncryptionKey) (iv : List Nat)
    (now : Nat) : PrivateReferenceEvent :=
  { kind := REFERENCE_PRIVATE_KIND
    content := encryptData (jsonStringifyReference r) key iv
    tags := [["client-ref-id", r.id], ["e-type", "reference"]]
    created_at := now }

/-- The value the private-publish mutation resolves with (again a fixed
placeholder, not the transport-assigned identifier). -/
def publishPrivateResolvedId (_r : Reference) (_transportEventId : String) : String :=
  "event:placeholder:private"

/-- Failure of `useRetractReference` on a record that was never published. -/
inductive RetractError
  | notPublished
deriving DecidableEq, Repr

/-- `useRetractReference`: throws when `reference.eventId` is falsy
(absent or `''`), otherwise sends a kind-5 event whose single `e` tag
references the stored event id.  The hook resolves `true` and performs no
mutation of the record or of the store; the unchanged record is returned to
make that explicit. -/
def retractReference (r : Reference) (reason : String) (now : Nat) :
    Except RetractError (NostrEvent × Reference) :=
  match r.eventId with
  | none => .error .notPublished
  | some e =>
    if e = "" then .error .notPublished
    else .ok ({ kind := REFERENCE_DELETE_KIND
                content := reason
                tags := [["e", e]]
                created_at := now }, r)

/-- An event as handed back by the transport (`nostr.query`): carries the
transport-assigned event identifier `id` next to the event fields. -/
structure FetchedEvent where
  id : String
  kind : Nat
  content : String
  tags : List (List String)
  created_at : Nat
deriving DecidableEq, Repr

/-- The predicate `tag[0] === name` used by the tag lookups in
`useFetchPublicReferences`. -/
def tagNamed (name : String) (tg : List String) : Bool :=
  tg.head? = some name

/-- The event-to-record mapping inside `useFetchPublicReferences` (the
`fromPublicEvent` direction of the event codec): tag lookups with the
JavaScript defaults of the source (`titleTag?.[1] || 'Untitled Reference'`,
`clientRefIdTag?.[1] || event.id`, `parseInt` for the year). -/
def fromPublicEvent (e : FetchedEvent) : Reference :=
  let titleTag := e.tags.find? (tagNamed "title")
  let authorTags := e.tags.filter (tagNamed "author")
  let yearTag := e.tags.find? (tagNamed "year")
  let journalTag := e.tags.find? (tagNamed "journal")
  let doiTag := e.tags.find? (tagNamed "doi")
  let urlTag := e.tags.find? (tagNamed "url")
  let tagTags := e.tags.filter (tagNamed "t")
  let clientRefIdTag := e.tags.find? (tagNamed "client-ref-id")
  { id := match clientRefIdTag.bind (fun tg => tg.get? 1) with
      | some s => if s = "" then e.id else s
      | none => e.id
    title := match titleTag.bind (fun tg => tg.get? 1) with
      | some t => if t = "" then "Untitled Reference" else t
      | none => "Untitled Reference"
    authors := authorTags.map (fun tg => tg.getD 1 "")
    year := (yearTag.bind (fun tg => tg.get? 1)).bind jsParseInt
    journalOrBook := journalTag.bind (fun tg => tg.get? 1)
    doi := doiTag.bind (fun tg => tg.get? 1)
    url := urlTag.bind (fun tg => tg.get? 1)
    tags := tagTags.map (fun tg => tg.getD 1 "")
    notes := none
    visibility := "public"
    createdAt := e.created_at
    updatedAt := e.created_at
    eventId := some e.id }

/-- Repackage a published event as the transport hands it back, with the
transport-assigned identifier. -/
def toFetchedEvent (ev : NostrEvent) (transportId : String) : FetchedEvent :=
  ⟨transportId, ev.kind, ev.content, ev.tags, ev.created_at⟩

/-- Publish a record publicly and decode the event the transport hands
back: the composition `fromPublicEvent ∘ toPublicEvent` of the claim. -/
def publishFetchRoundtrip (r : Reference) (now : Nat) (transportId : String) : Reference :=
  fromPublicEvent (toFetchedEvent (publishPublicReferenceEvent r now) transportId)

/-! ## Reference service (`src/services/referenceService.ts`)

`generateUniqueId()` (`Date.now().toString(36) + Math.random()...`) is
nondeterministic, so the generated id is a parameter; `Date.now()` likewise. -/

/-- `createReference(referenceData)`: new record with generated id, both
timestamps stamped now, no `eventId`. -/
def createReference (data : ReferenceFormData) (generatedId : String) (now : Nat) : Reference :=
  { id := generatedId
    title := data.title
    authors := data.authors
    year := data.year
    journalOrBook := data.journalOrBook
    doi := data.doi
    url := data.url
    tags := data.tags
    notes := data.notes
    visibility := data.visibility
    createdAt := now
    updatedAt := now
    eventId := none }

/-- The record produced by the spread `{ ...references[index],
...referenceData, updatedAt }` in `updateReference`: every form field
overwrites, `id`, `createdAt` and `eventId` are not in the form data and
survive. -/
def applyUpdate (old : Reference) (data : ReferenceFormData) (now : Nat) : Reference :=
  { id := old.id
    title := data.title
    authors := data.authors
    year := data.year
    journalOrBook := data.journalOrBook
    doi := data.doi
    url := data.url
    tags := data.tags
    notes := data.notes
    visibility := data.visibility
    createdAt := old.createdAt
    updatedAt := now
    eventId := old.eventId }

/-- `updateReference(id, referenceData)`: find the record by id, replace it
in place; `none` when the id is not in the library. -/
def updateReference (references : List Reference) (id : String) (data : ReferenceFormData)
    (now : Nat) : Option (Reference × List Reference) :=
  match references.findIdx? (fun ref => ref.id == id) with
  | none => none
  | some i =>
    match references.get? i with
    | none => none
    | some old =>
      let updated := applyUpdate old data now
      some (updated, references.set i updated)

/-- `deleteReference(id)`: drop the record; `none` models the `false`
return when nothing matched. -/
def deleteReference (references : List Reference) (id : String) : Option (List Reference) :=
  let filtered := references.filter (fun ref => ref.id ≠ id)
  if filtered.length = references.length then none else some filtered

/-! ## Page-level orchestration -/

/-- One Nostr operation awaited by the pages. -/
inductive NostrAction
  | retractAct (oldEventId : String) (reason : String)
  | publishPublicAct
  | publishPrivateAct
deriving DecidableEq, Repr

/-- JavaScript truthiness of `reference.eventId` (`undefined` and `''` are
falsy). -/
def hasEventId (r : Reference) : Bool :=
  match r.eventId with
  | some e => e ≠ ""
  | none => false

/-- The sequence of Nostr operations `handleSubmit` in
`EditReference.tsx` performs after the local update, in source order:
public→private with a stored event retracts then republishes privately;
private→public republishes publicly (the source comment notes it would
"ideally" delete the private event but does not); unchanged visibility with
a stored event retracts-then-republishes for public records and only
republishes for private ones. -/
def editReferenceNostrActions (old : Reference) (data : ReferenceFormData) :
    List NostrAction :=
  if old.visibility = "public" ∧ data.visibility = "private" ∧ hasEventId old then
    [.retractAct (old.eventId.getD "") "Changed to private by user", .publishPrivateAct]
  else if old.visibility = "private" ∧ data.visibility = "public" then
    [.publishPublicAct]
  else if hasEventId old then
    if data.visibility = "public" then
      [.retractAct (old.eventId.getD "") "Updated by user", .publishPublicAct]
    else [.publishPrivateAct]
  else []

/-- `confirmDelete` in `ViewReference.tsx`: always delete locally, then
send a retraction only when `reference.eventId` is truthy **and**
`reference.visibility === 'public'`. -/
def confirmDelete (references : List Reference) (r : Reference) (now : Nat) :
    List Reference × Option NostrEvent :=
  let afterDelete :=
    match deleteReference references r.id with
    | some filtered => filtered
    | none => references
  let retraction :=
    match r.eventId with
    | some e =>
      if e ≠ "" ∧ r.visibility = "public" then
        some { kind := REFERENCE_DELETE_KIND
               content := "Deleted by user"
               tags := [["e", e]]
               created_at := now }
      else none
    | none => none
  (afterDelete, retraction)

/-- The record stored by `handleSubmit` in `AddReference.tsx`: the page
creates the reference locally, publishes, and only logs the resolved event
id — `updateReferenceEventId` is never called, so the stored record keeps
`eventId` absent. -/
def addReferenceStored (data : ReferenceFormData) (generatedId : String) (now : Nat) :
    Reference :=
  createReference data generatedId now

/-! ## Citation keys (`src/utils/validators.ts`) -/

/-- The stop-list skipped when picking the first significant title word. -/
def skipWords : List String := ["a", "an", "the", "on", "in", "at", "to", "for", "of"]

/-- `reference.authors[0] || 'Unknown'` (an empty first author is falsy). -/
def codeFirstAuthor (authors : List String) : String :=
  match authors with
  | [] => "Unknown"
  | a :: _ => if a = "" then "Unknown" else a

/-- `firstAuthor.match(/(\S+)$/)`: trailing non-whitespace run of the first
author, defaulting to "Unknown" when the regex does not match. -/
def codeLastName (authors : List String) : String :=
  match trailingNonWsRun (codeFirstAuthor authors) with
  | [] => "Unknown"
  | run => String.mk run

/-- `reference.year?.toString() || 'nd'`. -/
def codeYearString (year : Option Int) : String :=
  match year with
  | some y => intToDecString y
  | none => "nd"

/-- `titleWords.find(word => !skipWords.includes(word.toLowerCase()))
|| titleWords[0] || 'untitled'` over `title.split(/\s+/)` (a found empty
chunk is falsy and falls through, like in JavaScript). -/
def codeSignificantWord (title : String) : String :=
  let titleWords := jsSplitWs title
  let fallback :=
    match titleWords.head? with
    | some w0 => if w0 = "" then "untitled" else w0
    | none => "untitled"
  match titleWords.find? (fun w => !(skipWords.contains (jsToLowerString w))) with
  | some w => if w = "" then fallback else w
  | none => fallback

/-- `createCitationKey({authors, year, title})`: first author's trailing
non-whitespace run (`match(/(\S+)$/)`, falling back to "Unknown"), the
year (`'nd'` when absent), the first `split(/\s+/)` chunk not in the
stop-list (JavaScript `find(...) || titleWords[0] || 'untitled'`), then
`replace(/[^\w]/g, '')`, `replace(/\s+/g, '')` and `toLowerCase()`. -/
def createCitationKey (authors : List String) (year : Option Int) (title : String) : String :=
  let raw := codeLastName authors ++ codeYearString year ++ codeSignificantWord title
  String.mk (((raw.data.filter isWordChar).filter (fun c => !(isJsWs c))).map Char.toLower)

/-! Specification-side citation-key functions, written after the words of
the claim ("the first author's last name … the first title word not in the
stop-list … stripped … and lower-cased"), for comparison with
`createCitationKey`. -/

/-- Claim reading of "the first author's last name": the last
whitespace-separated word of the first author, "Unknown" when there is no
first author or no word. -/
def specLastName (authors : List String) : String :=
  match authors with
  | [] => "Unknown"
  | a :: _ =>
    match (wordsOf a).getLast? with
    | some w => w
    | none => "Unknown"

/-- Claim reading of "the year (or nd)". -/
def specYearString (year : Option Int) : String :=
  match year with
  | some y => intToDecString y
  | none => "nd"

/-- Claim reading of "the first title word not in the stop-list (falling
back to the first word or untitled)", over the whitespace-separated words
of the title. -/
def specSignificantWord (title : String) : String :=
  match (wordsOf title).find? (fun w => !(skipWords.contains (jsToLowerString w))) with
  | some w => w
  | none =>
    match (wordsOf title).head? with
    | some w0 => w0
    | none => "untitled"

/-- The concatenation the claim describes, before cleaning. -/
def specCitationKeyRaw (authors : List String) (year : Option Int) (title : String) : String :=
  specLastName authors ++ specYearString year ++ specSignificantWord title

/-- The citation key exactly as the claim words it: the concatenation
"stripped of all non-alphanumeric characters and lower-cased". -/
def claimCitationKeyAlnum (authors : List String) (year : Option Int) (title : String) : String :=
  String.mk (((specCitationKeyRaw authors year title).data.filter Char.isAlphanum).map Char.toLower)

/-- The amended reading: only non-word characters are stripped — the
underscore, which is not alphanumeric, survives `replace(/[^\w]/g, '')`. -/
def specCitationKeyWord (authors : List String) (year : Option Int) (title : String) : String :=
  String.mk (((specCitationKeyRaw authors year title).data.filter isWordChar).map Char.toLower)

/-- Well-formedness used by the amended citation-key claim: the first
author, when present, does not end in whitespace (there the regex
`(\S+)$` and "last word" agree). -/
def firstAuthorOkB (authors : List String) : Bool :=
  match authors with
  | [] => true
  | a :: _ => !(endsWsChars a.data)

/-! ## BibTeX service (`src/services/bibtexService.ts`)

The parser is regex-driven; the two patterns
`@(\w+)\s*{\s*([^,]+)\s*,([\s\S]+?)\n}` and `(\w+)\s*=\s*{([^}]*)}` are
embedded as explicit scanners with the same match semantics (the patterns
are deterministic: no backtracking changes their captures, and a failed
attempt makes the engine retry one character further on). -/

/-- Find the first occurrence of the two-character sequence LF `\x7d`
(the lazy `([\s\S]+?)\n\x7d` tail): content before it, remainder after. -/
def findNewlineBrace : List Char → Option (List Char × List Char)
  | '\n' :: '\x7d' :: rest => some ([], rest)
  | c :: rest => (findNewlineBrace rest).map (fun p => (c :: p.1, p.2))
  | [] => none

/-- Attempt the entry pattern right after a `@`: entry type (`\w+`),
optional whitespace, `\x7b`, the citation key (`\s*([^,]+)\s*` then `,` —
the capture is trimmed afterwards, so it is the run up to the first comma,
trimmed), then the lazy body up to the first LF-`\x7d`.  Returns
(entry type, trimmed key, fields text) and the rest of the input. -/
def matchEntryAfterAt (cs : List Char) : Option ((String × String × List Char) × List Char) :=
  let p := cs.span isWordChar
  if p.1.isEmpty then none else
  match p.2.dropWhile isJsWs with
  | '\x7b' :: cs3 =>
    let q := cs3.span (fun c => c ≠ ',')
    if q.1.isEmpty then none else
    match q.2 with
    | ',' :: cs5 =>
      match cs5 with
      | [] => none
      | c :: cs6 =>
        match findNewlineBrace cs6 with
        | some bodyRest =>
          some ((String.mk p.1, String.mk (trimChars q.1), c :: bodyRest.1), bodyRest.2)
        | none => none
    | _ => none
  | _ => none

/-- Repeated `entryRegex.exec`: scan the input, at each `@` attempt a
match; on success continue after the match, on failure one character on. -/
def scanEntries : Nat → List Char → List (String × String × List Char)
  | 0, _ => []
  | _, [] => []
  | fuel+1, c :: rest =>
    if c = '@' then
      match matchEntryAfterAt rest with
      | some er => er.1 :: scanEntries fuel er.2
      | none => scanEntries fuel rest
    else scanEntries fuel rest

/-- Attempt the field pattern `(\w+)\s*=\s*\x7b([^\x7d]*)\x7d` at the head
of the input: lower-cased field name and trimmed value, plus the rest. -/
def matchFieldAt (cs : List Char) : Option ((String × String) × List Char) :=
  let p := cs.span isWordChar
  if p.1.isEmpty then none else
  match p.2.dropWhile isJsWs with
  | '=' :: cs3 =>
    match cs3.dropWhile isJsWs with
    | '\x7b' :: cs5 =>
      let q := cs5.span (fun c => c ≠ '\x7d')
      match q.2 with
      | '\x7d' :: cs7 =>
        some ((jsToLowerString (String.mk p.1), String.mk (trimChars q.1)), cs7)
      | _ => none
    | _ => none
  | _ => none

/-- Repeated `fieldRegex.exec` over the fields text. -/
def scanFields : Nat → List Char → List (String × String)
  | 0, _ => []
  | _, [] => []
  | fuel+1, c :: rest =>
    if isWordChar c then
      match matchFieldAt (c :: rest) with
      | some fr => fr.1 :: scanFields fuel fr.2
      | none => scanFields fuel rest
    else scanFields fuel rest

/-- Lookup in the `fields` record: repeated assignment means the last
occurrence of a field name wins. -/
def lookupField (fields : List (String × String)) (name : String) : Option String :=
  (fields.reverse.find? (fun f => f.1 == name)).map (fun f => f.2)

/-- `parseAuthors(authorString)`: split on literal `" and "`, trim, drop
empty chunks, reorder two-part `"Last, First"` chunks to `"First Last"`. -/
def parseAuthors (authorString : String) : List String :=
  let authors := ((jsSplitOnStr authorString " and ").map jsTrim).filter (fun a => a ≠ "")
  authors.map (fun author =>
    let parts := (jsSplitOnStr author ",").map jsTrim
    match parts with
    | [p0, p1] => p1 ++ " " ++ p0
    | _ => author)

/-- Map one matched BibTeX entry to a Reference, as in the body of the
`while` loop of `parseBibTeX`: the citation key becomes the id, missing
title defaults, `fields.author || ''` feeds `parseAuthors`, the year is
`parseInt`-ed when the field is truthy, `journal || booktitle` picks the
container, tags are empty and visibility is forced to private. -/
def bibtexEntryToReference (citationKey : String) (fieldsText : List Char) (now : Nat) :
    Reference :=
  let fields := scanFields fieldsText.length fieldsText
  { id := citationKey
    title :=
      match lookupField fields "title" with
      | some t => if t = "" then "Untitled Reference" else t
      | none => "Untitled Reference"
    authors := parseAuthors
      (match lookupField fields "author" with
       | some a => a
       | none => "")
    year :=
      match lookupField fields "year" with
      | some y => if y = "" then none else jsParseInt y
      | none => none
    journalOrBook :=
      match lookupField fields "journal" with
      | some j => if j = "" then lookupField fields "booktitle" else some j
      | none => lookupField fields "booktitle"
    doi := lookupField fields "doi"
    url := lookupField fields "url"
    tags := []
    notes := none
    visibility := "private"
    createdAt := now
    updatedAt := now
    eventId := none }

/-- `parseBibTeX(bibtex)` (`now` stands for `Date.now()` at import time). -/
def parseBibTeX (bibtex : String) (now : Nat) : List Reference :=
  (scanEntries bibtex.data.length bibtex.data).map
    (fun entry => bibtexEntryToReference entry.2.1 entry.2.2 now)

/-! ## Concrete sample data used by witnesses and counterexamples -/

/-- A private record that has been published (it carries an event id). -/
def sampleRecord : Reference :=
  { id := "r1", title := "T", authors := ["A"], year := none, journalOrBook := none
    doi := none, url := none, tags := [], notes := none, visibility := "private"
    createdAt := 0, updatedAt := 0, eventId := some "e1" }

/-- The same record with public visibility. -/
def samplePublicRecord : Reference :=
  { sampleRecord with visibility := "public" }

/-- Edited form data keeping private visibility. -/
def samplePrivateForm : ReferenceFormData :=
  { title := "T2", authors := ["A"], year := none, journalOrBook := none
    doi := none, url := none, tags := [], notes := none, visibility := "private" }

/-- Edited form data with public visibility. -/
def samplePublicForm : ReferenceFormData :=
  { samplePrivateForm with visibility := "public" }

/-- A valid public record with every optional field truthy. -/
def roundTripSample : Reference :=
  { id := "w1", title := "Title", authors := ["Ann B", "Cy D"], year := some 2021
    journalOrBook := some "J", doi := some "10.1000/x", url := some "http://x"
    tags := ["t1", "t2"], notes := none, visibility := "public"
    createdAt := 1, updatedAt := 1, eventId := none }

/-- A valid record whose year is `0` — accepted by the validation schema
(`z.number().int().min(0)…`), but falsy in JavaScript. -/
def yearZeroRecord : Reference :=
  { roundTripSample with id := "y0", year := some 0 }

/-- The BibTeX text of the parse example. -/
def bibSample : String :=
  "@article\x7bdoe2020test,\n  title = \x7bA Test\x7d,\n  author = \x7bDoe, Jane\x7d,\n  year = \x7b2020\x7d\n\x7d\n"

/-! # Theorems -/

/-! ### Decimal strings round-trip through `parseInt` -/

theorem digitVal_digitChar (m : Nat) (h : m < 10) : digitVal (Nat.digitChar m) = m := by
  interval_cases m <;> decide

theorem isDigit_digitChar (m : Nat) (h : m < 10) : (Nat.digitChar m).isDigit = true := by
  interval_cases m <;> decide

theorem isDigit_char_facts (c : Char) (h : c.isDigit = true) :
    isJsWs c = false ∧ c ≠ '-' ∧ c ≠ '+' ∧ c ≠ 'x' ∧ c ≠ 'X' := by
  refine ⟨?_, ?_, ?_, ?_, ?_⟩
  · by_contra hw
    rw [Bool.not_eq_false] at hw
    simp only [isJsWs, Bool.or_eq_true, decide_eq_true_eq] at hw
    rcases hw with ((((h1 | h1) | h1) | h1) | h1) | h1 <;> subst h1
      <;> exact absurd h (by decide)
  all_goals intro he
  all_goals subst he
  all_goals exact absurd h (by decide)

theorem takeWhile_all {α : Type} (p : α → Bool) :
    ∀ l : List α, (∀ c ∈ l, p c = true) → l.takeWhile p = l := by
  intro l hall
  induction l with
  | nil => rfl
  | cons a t ih =>
    simp only [List.takeWhile_cons, hall a (List.mem_cons_self a t), if_true]
    rw [ih (fun c hc => hall c (List.mem_cons_of_mem a hc))]

theorem natDecChars_spec :
    ∀ n : Nat, ∀ fuel : Nat, n < fuel →
      natDecChars fuel n ≠ []
      ∧ (∀ c ∈ natDecChars fuel n, c.isDigit = true)
      ∧ decValue (natDecChars fuel n) = n := by
  intro n
  induction n using Nat.strong_induction_on with
  | _ n ih =>
    intro fuel hf
    match fuel, hf with
    | fuel+1, hf =>
      by_cases h10 : n < 10
      · refine ⟨by simp [natDecChars, h10], ?_, ?_⟩
        · intro c hc
          simp only [natDecChars, if_pos h10, List.mem_singleton] at hc
          subst hc
          exact isDigit_digitChar n h10
        · simp [natDecChars, h10, decValue, digitVal_digitChar n h10]
      · have hn0 : 0 < n := by omega
        have hdiv : n / 10 < n := Nat.div_lt_self hn0 (by omega)
        have hdf : n / 10 < fuel := by omega
        obtain ⟨hne, hdig, hval⟩ := ih (n / 10) hdiv fuel hdf
        have hmod : n % 10 < 10 := Nat.mod_lt n (by omega)
        have hsplit : natDecChars (fuel+1) n
            = natDecChars fuel (n/10) ++ [Nat.digitChar (n % 10)] := by
          simp [natDecChars, h10]
        refine ⟨?_, ?_, ?_⟩
        · simp [hsplit]
        · intro c hc
          rw [hsplit] at hc
          rcases List.mem_append.mp hc with hc | hc
          · exact hdig c hc
          · rw [List.mem_singleton] at hc
            subst hc
            exact isDigit_digitChar _ hmod
        · rw [hsplit]
          unfold decValue at hval ⊢
          rw [List.foldl_append, hval]
          simp only [List.foldl_cons, List.foldl_nil, digitVal_digitChar _ hmod]
          omega

theorem jsParseIntMag_natDecChars (n : Nat) :
    jsParseIntMag (natDecChars (n+1) n) = some n := by
  obtain ⟨hne, hdig, hval⟩ := natDecChars_spec n (n+1) (Nat.lt_succ_self n)
  have hdec : parseDecRun (natDecChars (n+1) n) = some n := by
    simp only [parseDecRun, takeWhile_all Char.isDigit _ hdig]
    rw [if_neg (by simpa [List.isEmpty_iff] using hne), hval]
  obtain ⟨c, t, hct⟩ := List.exists_cons_of_ne_nil hne
  cases t with
  | nil => rw [hct] at hdec ⊢; simpa [jsParseIntMag] using hdec
  | cons c2 t2 =>
    have hc2 : c2.isDigit = true := hdig c2 (by rw [hct]; simp)
    obtain ⟨_, _, _, hx, hX⟩ := isDigit_char_facts c2 hc2
    rw [hct] at hdec ⊢
    simp only [jsParseIntMag]
    rw [if_neg (by tauto)]
    exact hdec

theorem jsParseInt_natToDecString (n : Nat) :
    jsParseInt (natToDecString n) = some (n : Int) := by
  obtain ⟨hne, hdig, _⟩ := natDecChars_spec n (n+1) (Nat.lt_succ_self n)
  obtain ⟨c, t, hct⟩ := List.exists_cons_of_ne_nil hne
  have hc : c.isDigit = true := hdig c (by rw [hct]; exact List.mem_cons_self c t)
  obtain ⟨hws, hminus, hplus, _, _⟩ := isDigit_char_facts c hc
  have hmag := jsParseIntMag_natDecChars n
  show jsParseIntChars (natDecChars (n+1) n) = some (n : Int)
  have hdw : (natDecChars (n+1) n).dropWhile isJsWs = c :: t := by
    rw [hct, List.dropWhile_cons, if_neg (by simp [hws])]
  simp only [jsParseIntChars, hdw]
  rw [if_neg hminus, if_neg hplus, ← hct, hmag]
  rfl

theorem jsParseInt_intToDecString (y : Int) : jsParseInt (intToDecString y) = some y := by
  by_cases hy : y < 0
  · have hn : intToDecString y = String.mk ('-' :: natDecChars (y.natAbs+1) y.natAbs) := by
      simp [intToDecString, hy]
    rw [hn]
    show jsParseIntChars ('-' :: natDecChars (y.natAbs+1) y.natAbs) = some y
    have hdw : ('-' :: natDecChars (y.natAbs+1) y.natAbs).dropWhile isJsWs
        = '-' :: natDecChars (y.natAbs+1) y.natAbs := by
      rw [List.dropWhile_cons, if_neg (by decide)]
    simp only [jsParseIntChars, hdw]
    simp [jsParseIntMag_natDecChars]
    rw [abs_of_nonpos (le_of_lt hy), neg_neg]
  · have hv : intToDecString y = natToDecString y.natAbs := by
      simp [intToDecString, hy]
    rw [hv, jsParseInt_natToDecString]
    congr 1
    omega

/-! ### Tag lookups in the public event encoding -/

theorem find?_map_pair_ne (k k2 : String) (h : k2 ≠ k) (l : List String) :
    (l.map (fun a => [k, a])).find? (tagNamed k2) = none := by
  rw [List.find?_eq_none]
  intro x hx
  obtain ⟨a, _, rfl⟩ := List.mem_map.mp hx
  simp [tagNamed, Ne.symm h]

theorem filter_map_pair_ne (k k2 : String) (h : k2 ≠ k) (l : List String) :
    (l.map (fun a => [k, a])).filter (tagNamed k2) = [] := by
  rw [List.filter_eq_nil_iff]
  intro x hx
  obtain ⟨a, _, rfl⟩ := List.mem_map.mp hx
  simp [tagNamed, Ne.symm h]

theorem filter_map_pair_eq (k : String) (l : List String) :
    (l.map (fun a => [k, a])).filter (tagNamed k) = l.map (fun a => [k, a]) := by
  rw [List.filter_eq_self]
  intro x hx
  obtain ⟨a, _, rfl⟩ := List.mem_map.mp hx
  simp [tagNamed]

theorem find?_strOptTag_ne (k k2 : String) (h : k2 ≠ k) (v : Option String) :
    (strOptTag k v).find? (tagNamed k2) = none := by
  cases v with
  | none => rfl
  | some s =>
    by_cases hs : s = ""
    · simp [strOptTag, hs]
    · simp [strOptTag, hs, tagNamed, Ne.symm h]

theorem filter_strOptTag_ne (k k2 : String) (h : k2 ≠ k) (v : Option String) :
    (strOptTag k v).filter (tagNamed k2) = [] := by
  cases v with
  | none => rfl
  | some s =>
    by_cases hs : s = ""
    · simp [strOptTag, hs]
    · simp [strOptTag, hs, tagNamed, Ne.symm h]

theorem find?_strOptTag_self (k : String) (v : Option String) :
    (strOptTag k v).find? (tagNamed k) = (strOptTag k v).head? := by
  cases v with
  | none => rfl
  | some s =>
    by_cases hs : s = ""
    · simp [strOptTag, hs]
    · simp [strOptTag, hs, tagNamed]

theorem find?_yearOptTag_ne (k2 : String) (h : k2 ≠ "year") (v : Option Int) :
    (yearOptTag v).find? (tagNamed k2) = none := by
  cases v with
  | none => rfl
  | some y =>
    by_cases hy : y = 0
    · simp [yearOptTag, hy]
    · simp [yearOptTag, hy, tagNamed, Ne.symm h]

theorem filter_yearOptTag_ne (k2 : String) (h : k2 ≠ "year") (v : Option Int) :
    (yearOptTag v).filter (tagNamed k2) = [] := by
  cases v with
  | none => rfl
  | some y =>
    by_cases hy : y = 0
    · simp [yearOptTag, hy]
    · simp [yearOptTag, hy, tagNamed, Ne.symm h]

theorem find?_yearOptTag_self (v : Option Int) :
    (yearOptTag v).find? (tagNamed "year") = (yearOptTag v).head? := by
  cases v with
  | none => rfl
  | some y =>
    by_cases hy : y = 0
    · simp [yearOptTag, hy]
    · simp [yearOptTag, hy, tagNamed]

theorem publicTags_find_title (r : Reference) :
    (publicReferenceTags r).find? (tagNamed "title") = some ["title", r.title] := by
  simp [publicReferenceTags, List.find?_cons, tagNamed]

theorem publicTags_filter_author (r : Reference) :
    (publicReferenceTags r).filter (tagNamed "author")
      = r.authors.map (fun a => ["author", a]) := by
  simp [publicReferenceTags, List.filter_append, filter_map_pair_eq,
        filter_map_pair_ne "t" "author" (by decide),
        filter_strOptTag_ne "journal" "author" (by decide),
        filter_strOptTag_ne "doi" "author" (by decide),
        filter_strOptTag_ne "url" "author" (by decide),
        filter_yearOptTag_ne "author" (by decide), tagNamed]

theorem publicTags_find_year (r : Reference) :
    (publicReferenceTags r).find? (tagNamed "year") = (yearOptTag r.year).head? := by
  simp [publicReferenceTags, List.find?_append,
        find?_map_pair_ne "author" "year" (by decide),
        find?_map_pair_ne "t" "year" (by decide),
        find?_strOptTag_ne "journal" "year" (by decide),
        find?_strOptTag_ne "doi" "year" (by decide),
        find?_strOptTag_ne "url" "year" (by decide),
        find?_yearOptTag_self, tagNamed]

theorem publicTags_find_journal (r : Reference) :
    (publicReferenceTags r).find? (tagNamed "journal")
      = (strOptTag "journal" r.journalOrBook).head? := by
  simp [publicReferenceTags, List.find?_append,
        find?_map_pair_ne "author" "journal" (by decide),
        find?_map_pair_ne "t" "journal" (by decide),
        find?_strOptTag_self "journal",
        find?_strOptTag_ne "doi" "journal" (by decide),
        find?_strOptTag_ne "url" "journal" (by decide),
        find?_yearOptTag_ne "journal" (by decide), tagNamed]

theorem publicTags_find_doi (r : Reference) :
    (publicReferenceTags r).find? (tagNamed "doi") = (strOptTag "doi" r.doi).head? := by
  simp [publicReferenceTags, List.find?_append,
        find?_map_pair_ne "author" "doi" (by decide),
        find?_map_pair_ne "t" "doi" (by decide),
        find?_strOptTag_ne "journal" "doi" (by decide),
        find?_strOptTag_self "doi",
        find?_strOptTag_ne "url" "doi" (by decide),
        find?_yearOptTag_ne "doi" (by decide), tagNamed]

theorem publicTags_find_url (r : Reference) :
    (publicReferenceTags r).find? (tagNamed "url") = (strOptTag "url" r.url).head? := by
  simp [publicReferenceTags, List.find?_append,
        find?_map_pair_ne "author" "url" (by decide),
        find?_map_pair_ne "t" "url" (by decide),
        find?_strOptTag_ne "journal" "url" (by decide),
        find?_strOptTag_ne "doi" "url" (by decide),
        find?_strOptTag_self "url",
        find?_yearOptTag_ne "url" (by decide), tagNamed]

theorem publicTags_filter_t (r : Reference) :
    (publicReferenceTags r).filter (tagNamed "t") = r.tags.map (fun t => ["t", t]) := by
  simp [publicReferenceTags, List.filter_append, filter_map_pair_eq,
        filter_map_pair_ne "author" "t" (by decide),
        filter_strOptTag_ne "journal" "t" (by decide),
        filter_strOptTag_ne "doi" "t" (by decide),
        filter_strOptTag_ne "url" "t" (by decide),
        filter_yearOptTag_ne "t" (by decide), tagNamed]

/-- C2 counterexample: a schema-valid public record with `year = 0`
(`z.number().int().min(0)` accepts it) does not survive the round trip —
JavaScript truthiness drops the `year` tag and the decoded record has no
year. -/
theorem roundtrip_year_zero_counterexample :
    yearZeroRecord.year = some 0
    ∧ (publishFetchRoundtrip yearZeroRecord 5 "net1").year = none := by
  constructor
  · rfl
  · rfl

/-- C2 (amended): for every valid record with only non-confidential fields
whose truthy-guarded optional fields are not JavaScript-falsy (year not 0,
container/doi/url not the empty string when present), decoding the public
event produced for it restores the same title, authors in order, year,
container, doi, url, and the same tag list. -/
theorem fromPublicEvent_toPublicEvent_roundtrip (r : Reference) (now : Nat)
    (transportId : String) (htitle : r.title ≠ "") (hyear : r.year ≠ some 0)
    (hjournal : r.journalOrBook ≠ some "") (hdoi : r.doi ≠ some "")
    (hurl : r.url ≠ some "") :
    (publishFetchRoundtrip r now transportId).title = r.title
    ∧ (publishFetchRoundtrip r now transportId).authors = r.authors
    ∧ (publishFetchRoundtrip r now transportId).year = r.year
    ∧ (publishFetchRoundtrip r now transportId).journalOrBook = r.journalOrBook
    ∧ (publishFetchRoundtrip r now transportId).doi = r.doi
    ∧ (publishFetchRoundtrip r now transportId).url = r.url
    ∧ (publishFetchRoundtrip r now transportId).tags = r.tags := by
  have hev : publishFetchRoundtrip r now transportId
      = fromPublicEvent ⟨transportId, REFERENCE_PUBLIC_KIND,
          "KnowTation public reference", publicReferenceTags r, now⟩ := rfl
  rw [hev]
  simp only [fromPublicEvent]
  refine ⟨?_, ?_, ?_, ?_, ?_, ?_, ?_⟩
  · rw [publicTags_find_title r]
    simp [htitle]
  · rw [publicTags_filter_author r]
    rw [List.map_map]
    have hcomp : ((fun tg => tg.getD 1 "") ∘ fun a : String => ["author", a])
        = fun a => a := by
      funext a
      rfl
    rw [hcomp]
    simp
  · rw [publicTags_find_year r]
    cases hr : r.year with
    | none => simp [yearOptTag]
    | some y =>
      have hy0 : y ≠ 0 := by
        rintro rfl
        exact hyear hr
      simp [yearOptTag, hy0, jsParseInt_intToDecString]
  · rw [publicTags_find_journal r]
    cases hr : r.journalOrBook with
    | none => simp [strOptTag]
    | some j =>
      have hj : j ≠ "" := by
        rintro rfl
        exact hjournal hr
      simp [strOptTag, hj]
  · rw [publicTags_find_doi r]
    cases hr : r.doi with
    | none => simp [strOptTag]
    | some d =>
      have hd : d ≠ "" := by
        rintro rfl
        exact hdoi hr
      simp [strOptTag, hd]
  · rw [publicTags_find_url r]
    cases hr : r.url with
    | none => simp [strOptTag]
    | some u =>
      have hu : u ≠ "" := by
        rintro rfl
        exact hurl hr
      simp [strOptTag, hu]
  · rw [publicTags_filter_t r]
    rw [List.map_map]
    have hcomp : ((fun tg => tg.getD 1 "") ∘ fun t : String => ["t", t])
        = fun t => t := by
      funext t
      rfl
    rw [hcomp]
    simp

/-- C2 witness: the round trip at a concrete record with all fields. -/
theorem fromPublicEvent_toPublicEvent_roundtrip_witness :
    (publishFetchRoundtrip roundTripSample 5 "net1").title = roundTripSample.title
    ∧ (publishFetchRoundtrip roundTripSample 5 "net1").authors = roundTripSample.authors
    ∧ (publishFetchRoundtrip roundTripSample 5 "net1").year = roundTripSample.year
    ∧ (publishFetchRoundtrip roundTripSample 5 "net1").journalOrBook
        = roundTripSample.journalOrBook
    ∧ (publishFetchRoundtrip roundTripSample 5 "net1").doi = roundTripSample.doi
    ∧ (publishFetchRoundtrip roundTripSample 5 "net1").url = roundTripSample.url
    ∧ (publishFetchRoundtrip roundTripSample 5 "net1").tags = roundTripSample.tags :=
  fromPublicEvent_toPublicEvent_roundtrip roundTripSample 5 "net1"
    (by decide) (by decide) (by decide) (by decide) (by decide)

/-! ### Words, trailing runs and whitespace splitting (citation keys) -/

theorem isWordChar_not_ws (c : Char) (h : isWordChar c = true) : isJsWs c = false := by
  by_contra hw
  rw [Bool.not_eq_false] at hw
  simp only [isJsWs, Bool.or_eq_true, decide_eq_true_eq] at hw
  rcases hw with ((((h1 | h1) | h1) | h1) | h1) | h1 <;> subst h1
    <;> exact absurd h (by decide)

theorem mk_ne_empty (l : List Char) (h : l ≠ []) : String.mk l ≠ "" := by
  intro he
  exact h (congrArg String.data he)

theorem getLast?_map {α β : Type} (f : α → β) (l : List α) :
    (l.map f).getLast? = l.getLast?.map f := by
  induction l with
  | nil => rfl
  | cons a t ih =>
    cases t with
    | nil => rfl
    | cons b t2 => simpa [List.getLast?_cons_cons] using ih

theorem getLastD_irrel {α : Type} (l : List α) (h : l ≠ []) (d1 d2 : α) :
    l.getLastD d1 = l.getLastD d2 := by
  cases l with
  | nil => exact absurd rfl h
  | cons a t => rw [List.getLastD_cons, List.getLastD_cons]

theorem endsWsChars_cons (c : Char) (t : List Char) :
    endsWsChars (c :: t) = if t.isEmpty then isJsWs c else endsWsChars t := by
  cases t with
  | nil => rfl
  | cons b t2 => simp [endsWsChars, List.getLast?_cons_cons]

theorem wordsAux_ne_nil_of_cur (cs : List Char) :
    ∀ cur : List Char, cur ≠ [] → wordsAux cs cur ≠ [] := by
  induction cs with
  | nil =>
    intro cur h
    simp [wordsAux, h]
  | cons c t ih =>
    intro cur h
    by_cases hc : isJsWs c
    · simp [wordsAux, hc, h]
    · simp only [wordsAux, hc, Bool.false_eq_true, if_false]
      exact ih (c :: cur) (by simp)

theorem wordsAux_ne_nil_of_ends (t : List Char) :
    ∀ cur : List Char, t ≠ [] → endsWsChars t = false → wordsAux t cur ≠ [] := by
  induction t with
  | nil =>
    intro cur h
    exact absurd rfl h
  | cons c t2 ih =>
    intro cur _ hend
    cases ht2 : t2 with
    | nil =>
      subst ht2
      have hc : isJsWs c = false := by simpa [endsWsChars] using hend
      simp [wordsAux, hc]
    | cons d t3 =>
      subst ht2
      have hend2 : endsWsChars (d :: t3) = false := by
        rw [endsWsChars_cons] at hend
        simpa using hend
      by_cases hc : isJsWs c
      · by_cases hcur : cur.isEmpty
        · simp only [wordsAux, hc, if_true, hcur]
          exact ih [] (by simp) hend2
        · simp [wordsAux, hc, hcur]
      · simp only [wordsAux, hc, Bool.false_eq_true, if_false]
        exact ih (c :: cur) (by simp) hend2

theorem nil_not_mem_wordsAux (cs : List Char) :
    ∀ cur : List Char, ([] : List Char) ∉ wordsAux cs cur := by
  induction cs with
  | nil =>
    intro cur
    by_cases h : cur.isEmpty
    · simp [wordsAux, h]
    · have : cur ≠ [] := by simpa [List.isEmpty_iff] using h
      simp [wordsAux, h, List.reverse_eq_nil_iff, this]
  | cons c t ih =>
    intro cur
    by_cases hc : isJsWs c
    · by_cases hcur : cur.isEmpty
      · simp only [wordsAux, hc, if_true, hcur]
        exact ih []
      · have hcur2 : cur ≠ [] := by simpa [List.isEmpty_iff] using hcur
        simp only [wordsAux, hc, if_true, hcur, Bool.false_eq_true, if_false,
          List.mem_cons, not_or]
        exact ⟨by simp [List.reverse_eq_nil_iff, hcur2], ih []⟩
    · simp only [wordsAux, hc, Bool.false_eq_true, if_false]
      exact ih (c :: cur)

theorem trailingRunAux_eq_getLastD (cs : List Char) :
    ∀ cur : List Char, endsWsChars cs = false →
      trailingRunAux cs cur = (wordsAux cs cur).getLastD [] := by
  induction cs with
  | nil =>
    intro cur _
    by_cases h : cur.isEmpty
    · have : cur = [] := by simpa [List.isEmpty_iff] using h
      simp [trailingRunAux, wordsAux, h, this]
    · simp [trailingRunAux, wordsAux, h]
  | cons c t ih =>
    intro cur hend
    by_cases hc : isJsWs c
    · have ht : t ≠ [] := by
        intro h0
        subst h0
        rw [endsWsChars_cons] at hend
        simp [hc] at hend
      have hend2 : endsWsChars t = false := by
        rw [endsWsChars_cons] at hend
        have hte : t.isEmpty = false := by simp [List.isEmpty_iff, ht]
        simpa [hte] using hend
      by_cases hcur : cur.isEmpty
      · simp only [trailingRunAux, hc, if_true, wordsAux, hcur]
        exact ih [] hend2
      · simp only [trailingRunAux, hc, if_true, wordsAux, hcur, Bool.false_eq_true, if_false,
          List.getLastD_cons]
        rw [ih [] hend2]
        exact (getLastD_irrel (wordsAux t []) (wordsAux_ne_nil_of_ends t [] ht hend2)
          cur.reverse []).symm
    · have hend2 : endsWsChars t = false := by
        cases ht : t with
        | nil => rfl
        | cons d t3 =>
          subst ht
          rw [endsWsChars_cons] at hend
          simpa using hend
      simp only [trailingRunAux, hc, Bool.false_eq_true, if_false, wordsAux]
      exact ih (c :: cur) hend2

theorem jsSplitWsAux_spec :
    ∀ n : Nat, ∀ cs : List Char, cs.length ≤ n →
      ((∀ cur : List Char, (cur.isEmpty = true → startsWsChars cs = false) →
        jsSplitWsAux cs cur false
          = (wordsAux cs cur).map String.mk
            ++ (if cs.isEmpty then (if cur.isEmpty then [""] else [])
                else if endsWsChars cs then [""] else []))
       ∧ jsSplitWsAux cs [] true
          = (wordsAux cs []).map String.mk
            ++ (if cs.isEmpty then [""] else if endsWsChars cs then [""] else [])) := by
  intro n
  induction n with
  | zero =>
    intro cs hlen
    have hcs : cs = [] := List.eq_nil_of_length_eq_zero (Nat.le_zero.mp hlen)
    subst hcs
    constructor
    · intro cur _
      by_cases h : cur.isEmpty
      · have : cur = [] := by simpa [List.isEmpty_iff] using h
        subst this
        rfl
      · simp [jsSplitWsAux, wordsAux, h]
    · rfl
  | succ n ih =>
    intro cs hlen
    cases cs with
    | nil =>
      constructor
      · intro cur _
        by_cases h : cur.isEmpty
        · have : cur = [] := by simpa [List.isEmpty_iff] using h
          subst this
          rfl
        · simp [jsSplitWsAux, wordsAux, h]
      · rfl
    | cons c t =>
      have ht : t.length ≤ n := by simpa using hlen
      obtain ⟨ihF, ihT⟩ := ih t ht
      have hTailWs : isJsWs c = true →
          ((if t.isEmpty then ([""] : List String) else if endsWsChars t then [""] else [])
            = (if endsWsChars (c :: t) then [""] else [])) := by
        intro hc
        cases t with
        | nil => simp [endsWsChars, hc]
        | cons d t2 =>
          rw [endsWsChars_cons c (d :: t2)]
          simp
      constructor
      · intro cur hcur
        by_cases hc : isJsWs c
        · have hcurne : cur.isEmpty = false := by
            by_contra hx
            rw [Bool.not_eq_false] at hx
            have := hcur hx
            simp [startsWsChars, hc] at this
          simp only [jsSplitWsAux, hc, if_true, Bool.false_eq_true, if_false, wordsAux, hcurne]
          rw [ihT]
          simp only [List.map_cons, List.cons_append, List.isEmpty_cons, Bool.false_eq_true,
            if_false]
          rw [hTailWs hc]
        · simp only [jsSplitWsAux, hc, Bool.false_eq_true, if_false, wordsAux]
          rw [ihF (c :: cur) (by simp)]
          have htail :
              (if t.isEmpty then (if (c :: cur).isEmpty then ([""] : List String) else [])
               else if endsWsChars t then [""] else [])
                = (if endsWsChars (c :: t) then [""] else []) := by
            cases t with
            | nil => simp [endsWsChars, hc]
            | cons d t2 =>
              rw [endsWsChars_cons c (d :: t2)]
              simp
          rw [htail]
          simp
      · by_cases hc : isJsWs c
        · simp only [jsSplitWsAux, hc, if_true, wordsAux, List.isEmpty_nil]
          rw [ihT]
          simp only [List.isEmpty_cons, Bool.false_eq_true, if_false]
          rw [hTailWs hc]
        · simp only [jsSplitWsAux, hc, Bool.false_eq_true, if_false, wordsAux,
            List.isEmpty_nil, if_true]
          rw [ihF [c] (by simp)]
          have htail :
              (if t.isEmpty then (if ([c] : List Char).isEmpty then ([""] : List String) else [])
               else if endsWsChars t then [""] else [])
                = (if endsWsChars (c :: t) then [""] else []) := by
            cases t with
            | nil => simp [endsWsChars, hc]
            | cons d t2 =>
              rw [endsWsChars_cons c (d :: t2)]
              simp
          rw [htail]
          simp

theorem codeLastName_eq (authors : List String) (hA : firstAuthorOkB authors = true) :
    codeLastName authors = specLastName authors := by
  cases authors with
  | nil => rfl
  | cons a rest =>
    by_cases ha : a = ""
    · subst ha
      rfl
    · have hend : endsWsChars a.data = false := by
        simpa [firstAuthorOkB] using hA
      have hfa : codeFirstAuthor (a :: rest) = a := by
        simp [codeFirstAuthor, ha]
      have htr : trailingNonWsRun a = (wordsAux a.data []).getLastD [] :=
        trailingRunAux_eq_getLastD a.data [] hend
      have hspec : specLastName (a :: rest)
          = (match ((wordsAux a.data []).getLast?).map String.mk with
             | some w => w
             | none => "Unknown") := by
        rw [specLastName]
        rw [show wordsOf a = (wordsAux a.data []).map String.mk from rfl]
        rw [getLast?_map]
      rw [codeLastName, hfa, htr, hspec]
      cases hw : (wordsAux a.data []).getLast? with
      | none =>
        rw [List.getLastD_eq_getLast?, hw]
        rfl
      | some l =>
        have hlmem : l ∈ wordsAux a.data [] := List.mem_of_getLast?_eq_some hw
        have hlne : l ≠ [] := by
          intro h0
          subst h0
          exact nil_not_mem_wordsAux a.data [] hlmem
        rw [List.getLastD_eq_getLast?, hw]
        cases l with
        | nil => exact absurd rfl hlne
        | cons x xs => rfl

theorem codeSignificantWord_eq (title : String)
    (hT : startsWsChars title.data = false) :
    codeSignificantWord title = specSignificantWord title := by
  by_cases h0 : title = ""
  · subst h0
    rfl
  · have hne : title.data ≠ [] := by
      intro h
      apply h0
      cases title with
      | mk d =>
        simp only at h
        subst h
        rfl
    have hsplit := (jsSplitWsAux_spec title.data.length title.data le_rfl).1 []
      (fun _ => hT)
    have hcsne : title.data.isEmpty = false := by
      simp [List.isEmpty_iff, hne]
    rw [hcsne] at hsplit
    simp only [Bool.false_eq_true, if_false] at hsplit
    have hwne : wordsAux title.data [] ≠ [] := by
      cases hcs : title.data with
      | nil => exact absurd hcs hne
      | cons c t =>
        have hc : isJsWs c = false := by
          rw [hcs] at hT
          simpa [startsWsChars] using hT
        have hstep : wordsAux (c :: t) [] = wordsAux t [c] := by
          simp [wordsAux, hc]
        rw [hstep]
        exact wordsAux_ne_nil_of_cur t [c] (by simp)
    have hmapne : (wordsAux title.data []).map String.mk ≠ [] := by
      simpa using hwne
    obtain ⟨w0, ws, hwcons⟩ := List.exists_cons_of_ne_nil hmapne
    have hw0 : w0 ∈ (wordsAux title.data []).map String.mk := by
      rw [hwcons]
      exact List.mem_cons_self w0 ws
    have hw0ne : w0 ≠ "" := by
      obtain ⟨l, hl, rfl⟩ := List.mem_map.mp hw0
      exact mk_ne_empty l (fun h0x => nil_not_mem_wordsAux title.data [] (h0x ▸ hl))
    have htw : jsSplitWs title
        = (wordsAux title.data []).map String.mk
          ++ (if endsWsChars title.data then [""] else []) := hsplit
    -- the chunks coming from real words are never empty, so the JavaScript
    -- falsiness check only fires on the possible trailing "" chunk
    rw [codeSignificantWord, specSignificantWord, htw]
    rw [show wordsOf title = (wordsAux title.data []).map String.mk from rfl]
    rw [List.find?_append]
    cases hf : ((wordsAux title.data []).map String.mk).find?
        (fun w => !(skipWords.contains (jsToLowerString w))) with
    | some w =>
      have hwmem : w ∈ (wordsAux title.data []).map String.mk :=
        List.mem_of_find?_eq_some hf
      have hwne2 : w ≠ "" := by
        obtain ⟨l, hl, rfl⟩ := List.mem_map.mp hwmem
        exact mk_ne_empty l (fun h0x => nil_not_mem_wordsAux title.data [] (h0x ▸ hl))
      simp [hwne2]
    | none =>
      by_cases hendw : endsWsChars title.data
      · simp only [hendw, if_true, Option.none_or]
        have hfind : ([""] : List String).find?
            (fun w => !(skipWords.contains (jsToLowerString w))) = some "" := by
          decide
        rw [hfind, hwcons]
        simp [hw0ne]
      · simp only [hendw, Bool.false_eq_true, if_false, Option.none_or, List.find?_nil,
          List.append_nil]
        rw [hwcons]
        simp [hw0ne]

/-- C7 counterexample: the underscore is a word character, so
`replace(/[^\w]/g, '')` keeps it — the claim's "stripped of all
non-alphanumeric characters" would delete it.  For the author "O_Hara" the
code produces `o_hara2020study`, not the claimed `ohara2020study`. -/
theorem createCitationKey_underscore_counterexample :
    createCitationKey ["O_Hara"] (some 2020) "Study" = "o_hara2020study"
    ∧ claimCitationKeyAlnum ["O_Hara"] (some 2020) "Study" = "ohara2020study"
    ∧ createCitationKey ["O_Hara"] (some 2020) "Study"
        ≠ claimCitationKeyAlnum ["O_Hara"] (some 2020) "Study" := by
  refine ⟨by decide, by decide, by decide⟩

/-- C7 (amended): for every reference whose title does not start with
whitespace and whose first author, when present, does not end with
whitespace, the citation key is the first author's last name (or
"Unknown"), the year (or "nd"), and the first title word not in the
stop-list (falling back to the first word or "untitled"), with the
concatenation stripped of all characters other than letters, digits and
the underscore (`\w`), and lower-cased. -/
theorem createCitationKey_spec (authors : List String) (year : Option Int) (title : String)
    (hA : firstAuthorOkB authors = true) (hT : startsWsChars title.data = false) :
    createCitationKey authors year title = specCitationKeyWord authors year title := by
  have h1 : codeLastName authors = specLastName authors := codeLastName_eq authors hA
  have h2 : codeSignificantWord title = specSignificantWord title :=
    codeSignificantWord_eq title hT
  have h3 : codeYearString year = specYearString year := rfl
  rw [createCitationKey, specCitationKeyWord, specCitationKeyRaw, h1, h2, h3]
  congr 1
  have hfil : ∀ l : List Char,
      (l.filter isWordChar).filter (fun c => !(isJsWs c)) = l.filter isWordChar := by
    intro l
    rw [List.filter_eq_self]
    intro c hc
    have hcw : isWordChar c = true := (List.mem_filter.mp hc).2
    simp [isWordChar_not_ws c hcw]
  rw [hfil]

/-- C7 witness: the concrete instance of the claim — stop word "the"
skipped, key `doe2020great`. -/
theorem createCitationKey_spec_witness :
    createCitationKey ["Jane Doe"] (some 2020) "The Great Study"
      = specCitationKeyWord ["Jane Doe"] (some 2020) "The Great Study"
    ∧ createCitationKey ["Jane Doe"] (some 2020) "The Great Study" = "doe2020great" :=
  ⟨createCitationKey_spec ["Jane Doe"] (some 2020) "The Great Study"
    (by decide) (by decide), by decide⟩

/-- C1: Confidential data never appears in cleartext on the wire: the
public event built by `usePublishPublicReference` contains no notes data
(two records identical except for `notes` yield identical public events),
and the private event built by `usePublishPrivateReference` has exactly the
`client-ref-id` tag and the fixed `e-type`/`reference` marker as tags,
with title, authors, year, doi, url and notes present only through the
encrypted content (the encryption of the serialized record). -/
theorem confidential_fields_never_cleartext (r : Reference) (notes1 notes2 : Option String)
    (now : Nat) (key : EncryptionKey) (iv : List Nat) :
    publishPublicReferenceEvent { r with notes := notes1 } now
      = publishPublicReferenceEvent { r with notes := notes2 } now
    ∧ (publishPrivateReferenceEvent r key iv now).tags
      = [["client-ref-id", r.id], ["e-type", "reference"]]
    ∧ (publishPrivateReferenceEvent r key iv now).content
      = encryptData (jsonStringifyReference r) key iv :=
  ⟨rfl, rfl, rfl⟩

/-- C3: the code evaluated at the failing inputs — both publish mutations
resolve a fixed placeholder string, ignoring the transport response, and
the add flow stores the record with `eventId` still absent, so the
record's network reference is never set to the transport-returned
identifier. -/
theorem publish_resolves_placeholder (r : Reference) (transportEventId : String)
    (data : ReferenceFormData) (generatedId : String) (now : Nat) :
    publishPublicResolvedId r transportEventId = "event:placeholder"
    ∧ publishPrivateResolvedId r transportEventId = "event:placeholder:private"
    ∧ (addReferenceStored data generatedId now).eventId = none :=
  ⟨rfl, rfl, rfl⟩

/-- C3 witness: concrete instance of the placeholder behaviour. -/
theorem publish_resolves_placeholder_witness :
    publishPublicResolvedId sampleRecord "realNetworkId" = "event:placeholder"
    ∧ publishPrivateResolvedId sampleRecord "realNetworkId" = "event:placeholder:private"
    ∧ (addReferenceStored samplePrivateForm "gid" 3).eventId = none :=
  publish_resolves_placeholder sampleRecord "realNetworkId" samplePrivateForm "gid" 3

/-- C4 counterexample: a record with a stored event id updated with
unchanged private visibility gets only a fresh private publish and no
retraction, and a private→public flip gets only a public publish and no
retraction — contradicting "issues a retraction of the old networkRef
before publishing" for those cases. -/
theorem editReference_no_retraction_counterexample :
    editReferenceNostrActions sampleRecord samplePrivateForm = [NostrAction.publishPrivateAct]
    ∧ editReferenceNostrActions sampleRecord samplePublicForm = [NostrAction.publishPublicAct]
    ∧ sampleRecord.eventId = some "e1" := by decide

/-- C4 (amended): for a record with a (truthy) stored event id,
`handleSubmit` in `EditReference.tsx` retracts the old event before the new
publish only in the public→private flip and in the unchanged-public case;
an unchanged-private update publishes a new private encoding without
retraction, and a private→public flip publishes publicly without
retracting the old private representation. -/
theorem editReference_retraction_policy (old : Reference) (data : ReferenceFormData)
    (e : String) (he : old.eventId = some e) (hne : e ≠ "") :
    (old.visibility = "public" → data.visibility = "private" →
      editReferenceNostrActions old data
        = [.retractAct e "Changed to private by user", .publishPrivateAct])
    ∧ (old.visibility = "private" → data.visibility = "public" →
      editReferenceNostrActions old data = [.publishPublicAct])
    ∧ (old.visibility = "public" → data.visibility = "public" →
      editReferenceNostrActions old data
        = [.retractAct e "Updated by user", .publishPublicAct])
    ∧ (old.visibility = "private" → data.visibility = "private" →
      editReferenceNostrActions old data = [.publishPrivateAct]) := by
  have hhas : hasEventId old = true := by simp [hasEventId, he, hne]
  refine ⟨fun hp hd => ?_, fun hp hd => ?_, fun hp hd => ?_, fun hp hd => ?_⟩
  · simp [editReferenceNostrActions, hp, hd, hhas, he]
  · simp [editReferenceNostrActions, hp, hd, hhas, he]
  · simp [editReferenceNostrActions, hp, hd, hhas, he]
  · simp [editReferenceNostrActions, hp, hd, hhas, he]

/-- C4 witness: the public→private flip at a concrete published record. -/
theorem editReference_retraction_policy_witness :
    editReferenceNostrActions samplePublicRecord samplePrivateForm
      = [NostrAction.retractAct "e1" "Changed to private by user",
         NostrAction.publishPrivateAct] :=
  (editReference_retraction_policy samplePublicRecord samplePrivateForm "e1" rfl
    (by decide)).1 rfl rfl

/-- C5 counterexample: retracting a published record succeeds and sends
the right event, but the record afterwards still carries its event id —
it is not cleared, so the record does not return to the Unsynced state. -/
theorem retract_does_not_clear_counterexample :
    retractReference sampleRecord "gone" 7
      = .ok ({ kind := 5, content := "gone", tags := [["e", "e1"]], created_at := 7 },
             sampleRecord)
    ∧ sampleRecord.eventId = some "e1" := ⟨rfl, rfl⟩

/-- C5 (amended): `useRetractReference` on a record with a falsy
`eventId` (absent or empty) fails with the not-published error and sends
nothing; with an event id present it sends a kind-5 retraction referencing
exactly that id — but on success the record is returned unchanged: its
`eventId` is not cleared (and no caller clears it). -/
theorem retractReference_spec (r : Reference) (reason : String) (now : Nat) :
    (r.eventId = none → retractReference r reason now = .error .notPublished)
    ∧ (∀ e, r.eventId = some e → e ≠ "" →
        retractReference r reason now
          = .ok ({ kind := REFERENCE_DELETE_KIND, content := reason
                   tags := [["e", e]], created_at := now }, r))
    ∧ (r.eventId = some "" → retractReference r reason now = .error .notPublished) := by
  refine ⟨fun h => ?_, fun e he hne => ?_, fun h => ?_⟩
  · simp [retractReference, h]
  · simp [retractReference, he, hne]
  · simp [retractReference, h]

/-- C5 witness: the retraction event for a concrete published record. -/
theorem retractReference_spec_witness :
    retractReference sampleRecord "gone" 7
      = .ok ({ kind := REFERENCE_DELETE_KIND, content := "gone"
               tags := [["e", "e1"]], created_at := 7 }, sampleRecord) :=
  (retractReference_spec sampleRecord "gone" 7).2.1 "e1" rfl (by decide)

/-- C6: decrypting the blob produced by `encryptData` with the same key
returns exactly the original plaintext; decrypting with a different key
fails with the authentication failure and yields no plaintext at all. -/
theorem decrypt_encrypt_roundtrip (text : String) (key key2 : EncryptionKey)
    (iv : List Nat) (hk : key2 ≠ key) :
    decryptData (encryptData text key iv) key = .ok text
    ∧ decryptData (encryptData text key iv) key2 = .error .authenticationFailure := by
  constructor
  · simp [decryptData, encryptData, aeadEncrypt, aeadDecrypt]
  · simp [decryptData, encryptData, aeadEncrypt, aeadDecrypt, Ne.symm hk]

/-- C6 witness: a concrete round trip and a concrete wrong-key failure. -/
theorem decrypt_encrypt_roundtrip_witness :
    (⟨"key2"⟩ : EncryptionKey) ≠ (⟨"key1"⟩ : EncryptionKey)
    ∧ decryptData (encryptData "secret notes" ⟨"key1"⟩ [0, 1, 2, 3, 4, 5, 6, 7, 8, 9, 10, 11])
        ⟨"key1"⟩ = .ok "secret notes"
    ∧ decryptData (encryptData "secret notes" ⟨"key1"⟩ [0, 1, 2, 3, 4, 5, 6, 7, 8, 9, 10, 11])
        ⟨"key2"⟩ = .error .authenticationFailure :=
  ⟨by decide,
   (decrypt_encrypt_roundtrip "secret notes" ⟨"key1"⟩ ⟨"key2"⟩
     [0, 1, 2, 3, 4, 5, 6, 7, 8, 9, 10, 11] (by decide)).1,
   (decrypt_encrypt_roundtrip "secret notes" ⟨"key1"⟩ ⟨"key2"⟩
     [0, 1, 2, 3, 4, 5, 6, 7, 8, 9, 10, 11] (by decide)).2⟩

/-- C10: on delete, the record is always removed locally, and a retraction
is sent exactly when the record has a (truthy) event id and public
visibility; deleting a published private reference therefore never issues
a retraction. -/
theorem confirmDelete_retraction_only_public (references : List Reference) (r : Reference)
    (now : Nat) :
    (confirmDelete references r now).1 = references.filter (fun ref => ref.id ≠ r.id)
    ∧ ((confirmDelete references r now).2.isSome
        ↔ ∃ e, r.eventId = some e ∧ e ≠ "" ∧ r.visibility = "public")
    ∧ (r.visibility = "private" → (confirmDelete references r now).2 = none) := by
  refine ⟨?_, ?_, ?_⟩
  · have key : deleteReference references r.id
        = if (references.filter (fun ref => ref.id ≠ r.id)).length = references.length
          then none else some (references.filter (fun ref => ref.id ≠ r.id)) := rfl
    show (match deleteReference references r.id with
      | some filtered => filtered
      | none => references) = _
    by_cases h : (references.filter (fun ref => ref.id ≠ r.id)).length = references.length
    · rw [key, if_pos h]
      exact ((List.filter_sublist references).eq_of_length h).symm
    · rw [key, if_neg h]
  · cases hev : r.eventId with
    | none => simp [confirmDelete, hev]
    | some e =>
      by_cases hcond : e ≠ "" ∧ r.visibility = "public"
      · have hex : ∃ e2, r.eventId = some e2 ∧ e2 ≠ "" ∧ r.visibility = "public" :=
          ⟨e, hev, hcond.1, hcond.2⟩
        simp [confirmDelete, hev, hcond, hex]
      · have hex : ¬ ∃ e2, r.eventId = some e2 ∧ e2 ≠ "" ∧ r.visibility = "public" := by
          rintro ⟨e2, he2, hne2, hv2⟩
          rw [hev] at he2
          cases he2
          exact hcond ⟨hne2, hv2⟩
        simp [confirmDelete, hev, hcond, hex]
  · intro hpriv
    cases hev : r.eventId with
    | none => simp [confirmDelete, hev]
    | some e =>
      have hcond : ¬ (e ≠ "" ∧ r.visibility = "public") := by
        rintro ⟨-, hv⟩
        rw [hpriv] at hv
        exact absurd hv (by decide)
      simp [confirmDelete, hev, hcond]

/-- C10 witness: deleting a published private record removes it locally
and sends no retraction. -/
theorem confirmDelete_retraction_only_public_witness :
    (confirmDelete [sampleRecord] sampleRecord 3).2 = none :=
  (confirmDelete_retraction_only_public [sampleRecord] sampleRecord 3).2.2 rfl

/-- C8: parsing the sample BibTeX entry yields exactly one record: title
"A Test", authors ["Jane Doe"] (the "Last, First" form reordered), year
2020, empty tags, private visibility, and the citation key as id. -/
theorem parseBibTeX_sample (now : Nat) :
    parseBibTeX bibSample now
      = [{ id := "doe2020test", title := "A Test", authors := ["Jane Doe"],
           year := some 2020, journalOrBook := none, doi := none, url := none,
           tags := [], notes := none, visibility := "private",
           createdAt := now, updatedAt := now, eventId := none }] := rfl

set_option maxRecDepth 4000 in
/-- C9 counterexample: parsing the same BibTeX entry twice yields two
records with the same id — `parseBibTeX` uses the citation key of the
entry as the record id, so equal entries give equal ids. -/
theorem parseBibTeX_duplicate_ids_counterexample :
    (parseBibTeX (bibSample ++ bibSample) 0).map Reference.id
      = ["doe2020test", "doe2020test"] := rfl

/-- C9 (amended): `createReference` assigns the freshly generated id and
`updateReference` preserves the matched record's id and creation date —
but records produced by `parseBibTeX` take the citation key as id, so
importing the same entry twice yields records with equal ids at the parse
stage (the import page then re-creates the stored records through
`createReference` with fresh generated ids). -/
theorem id_assignment (references : List Reference) (id : String) (data : ReferenceFormData)
    (now : Nat) (u : Reference) (newLib : List Reference)
    (h : updateReference references id data now = some (u, newLib))
    (form : ReferenceFormData) (generatedId : String) (now2 : Nat) :
    (∃ old, old ∈ references ∧ u = applyUpdate old data now
      ∧ u.id = old.id ∧ u.createdAt = old.createdAt)
    ∧ (createReference form generatedId now2).id = generatedId := by
  refine ⟨?_, rfl⟩
  unfold updateReference at h
  split at h
  · cases h
  · split at h
    · cases h
    · next old hget =>
      simp only [Option.some.injEq, Prod.mk.injEq] at h
      obtain ⟨h1, h2⟩ := h
      exact ⟨old, List.get?_mem hget, h1.symm,
        by rw [← h1]; rfl, by rw [← h1]; rfl⟩


/-- C9 witness: a concrete update that keeps id and creation date. -/
theorem id_assignment_witness :
    (∃ old, old ∈ [sampleRecord]
      ∧ applyUpdate sampleRecord samplePrivateForm 9 = applyUpdate old samplePrivateForm 9
      ∧ (applyUpdate sampleRecord samplePrivateForm 9).id = old.id
      ∧ (applyUpdate sampleRecord samplePrivateForm 9).createdAt = old.createdAt)
    ∧ (createReference samplePrivateForm "gid" 1).id = "gid" :=
  id_assignment [sampleRecord] "r1" samplePrivateForm 9
    (applyUpdate sampleRecord samplePrivateForm 9)
    [applyUpdate sampleRecord samplePrivateForm 9] rfl samplePrivateForm "gid" 1

end KnowTation
